import Mathlib

/-!
# Verification of the MonkeyOCR-WebApp task-lifecycle core

A shallow embedding, in Lean 4, of the task-store, content-cache,
task-scheduler and sync-coordinator logic of the MonkeyOCR-WebApp backend
(`src/backend/utils/sqlite_persistence.py`, `src/backend/utils/ocr_cache.py`,
`src/backend/utils/redis_client.py`, `src/backend/utils/monkeyocr_client.py`,
`src/backend/api/upload.py`, `src/backend/api/sync.py`), together with
theorems settling the specification claims about it.

Modelling conventions:
* ISO-8601 timestamp strings are represented by natural numbers; the string
  comparison and `datetime.fromisoformat` ordering used by the code are
  order-isomorphic to the numeric order.
* Task ids, filenames, file contents and artifact references are `String`s.
* The SQLite store is a pair of in-memory tables (`processing_tasks`,
  `task_status_history`); each `db.execute` call commits in its own
  connection, exactly as `DatabaseManager.get_db` does.
* External collaborators (the `hashlib`/`json` library functions, the OCR
  service, the file system) are parameters of the definitions that call them.
-/

namespace MonkeyOCR

/-- Task status enum: the `status` column is constrained to
`pending | processing | completed | failed`
(`migrations/simplify_auth_schema.py`, CHECK constraint; also the
`Literal` type of `ProcessingTask.status` in `models/schemas.py`). -/
inductive TaskStatus where
| pending
| processing
| completed
| failed
deriving DecidableEq, Repr

/-- String rendering of a status, as stored in SQLite and hashed by
`sync._calculate_data_hash`. -/
def TaskStatus.toStr : TaskStatus → String
| .pending => "pending"
| .processing => "processing"
| .completed => "completed"
| .failed => "failed"

/-- One row of the `task_status_history` table
(`sqlite_persistence._add_status_history` inserts `(task_id, status, message)`;
`timestamp` defaults to the insertion time). -/
structure HistRow where
  task_id : String
  status : TaskStatus
  message : Option String
  timestamp : Nat
deriving DecidableEq, Repr

/-- One row of the `processing_tasks` table.  Columns as created by the
schema in `migrations/simplify_auth_schema.py` and written by
`sqlite_persistence.add_task` / `update_task`.  Note that the table has no
`last_modified` column: that field exists only on the in-memory pydantic
model and is never persisted, so every task read back from the store has
`last_modified = None`. -/
structure TaskRow where
  id : String
  user_id : Option Nat
  filename : String
  file_type : String
  file_hash : Option String
  file_size : Option Nat
  status : TaskStatus
  progress : Nat
  is_public : Bool
  extraction_type : Option String
  split_pages : Bool
  total_pages : Option Nat
  processing_duration : Option Nat
  from_cache : Bool
  result_url : Option String
  error_message : Option String
  created_at : Nat
  updated_at : Option Nat
  processing_started_at : Option Nat
  completed_at : Option Nat
deriving DecidableEq, Repr

/-- The `ProcessingTask` object reconstructed from a database row by
`sqlite_persistence.get_task` / `get_all_tasks` (`ProcessingTask(**task_data)`).
It carries every column of the row, the status history, and the
`last_modified` field of the pydantic model, which is `None` for every task
built from a row (no such column is selected).  `models/schemas.py` omits
`user_id` / `is_public` / `from_cache` from the pydantic declaration while
every call site reads or writes them (`upload.delete_task` reads
`task.user_id`, `add_task` reads `task.is_public`, ...); the embedding keeps
them, as the call sites require. -/
structure PTask where
  id : String
  user_id : Option Nat
  filename : String
  file_type : String
  status : TaskStatus
  progress : Nat
  is_public : Bool
  from_cache : Bool
  result_url : Option String
  error_message : Option String
  created_at : Nat
  updated_at : Option Nat
  processing_started_at : Option Nat
  completed_at : Option Nat
  processing_duration : Option Nat
  last_modified : Option Nat
  status_history : List HistRow
deriving DecidableEq, Repr

/-- The durable SQLite store: the two tables the task-lifecycle core uses. -/
structure DBState where
  tasks : List TaskRow
  history : List HistRow
deriving DecidableEq, Repr

/-- `_get_status_history`: rows of `task_status_history` for one task,
ordered by timestamp ascending (`ORDER BY timestamp ASC`; insertion order is
timestamp order here, and `mergeSort` is stable like SQLite's sorter). -/
def get_status_history (s : DBState) (task_id : String) : List HistRow :=
  ((s.history.filter (fun h => h.task_id = task_id)).mergeSort
    (fun a b => a.timestamp ≤ b.timestamp))

/-- Conversion of a row (plus its history) to the `ProcessingTask` object,
as `get_task` / `get_all_tasks` perform it.  `last_modified` is `None`:
`SELECT *` yields no such column and the pydantic field defaults to `None`. -/
def taskOfRow (s : DBState) (r : TaskRow) : PTask :=
  { id := r.id
    user_id := r.user_id
    filename := r.filename
    file_type := r.file_type
    status := r.status
    progress := r.progress
    is_public := r.is_public
    from_cache := r.from_cache
    result_url := r.result_url
    error_message := r.error_message
    created_at := r.created_at
    updated_at := r.updated_at
    processing_started_at := r.processing_started_at
    completed_at := r.completed_at
    processing_duration := r.processing_duration
    last_modified := none
    status_history := get_status_history s r.id }

/-- `SQLitePersistenceManager.get_task`: `SELECT * FROM processing_tasks
WHERE id = ?`, `None` when absent. -/
def get_task (s : DBState) (task_id : String) : Option PTask :=
  (s.tasks.find? (fun r => r.id = task_id)).map (taskOfRow s)

/-- Comparison used to model `ORDER BY created_at DESC`. -/
def createdDesc (a b : TaskRow) : Bool := b.created_at ≤ a.created_at

/-- `SQLitePersistenceManager.get_all_tasks`:
for an authenticated user, `SELECT * WHERE user_id = ? ORDER BY created_at
DESC` (own tasks only, public tasks of others excluded); for an anonymous
caller, `SELECT * WHERE 1=0` — no rows at all. -/
def get_all_tasks (s : DBState) (user_id : Option Nat) : List PTask :=
  match user_id with
  | some uid =>
      ((s.tasks.filter (fun r => r.user_id = some uid)).mergeSort createdDesc).map
        (taskOfRow s)
  | none => []

/-- `SQLitePersistenceManager._add_status_history`: `INSERT INTO
task_status_history (task_id, status, message)`.  The connection runs with
`PRAGMA foreign_keys = ON` (`database/database.py`) and the table's
`task_id` references `processing_tasks(id)` (the cascade used by
`delete_task`), so the insert raises an integrity error — `none` here — when
no task row with that id exists. -/
def add_status_history (s : DBState) (task_id : String) (st : TaskStatus)
    (message : Option String) (now : Nat) : Option DBState :=
  if s.tasks.any (fun r => r.id = task_id) then
    some { s with history := s.history ++
      [{ task_id := task_id, status := st, message := message, timestamp := now }] }
  else
    none

/-- The update dictionary passed to `update_task`.  A `some` field means
the corresponding key is present in the Python dict; the call sites
(`api/upload.py`) pass exactly these keys. -/
structure TaskUpdates where
  status : Option TaskStatus := none
  progress : Option Nat := none
  result_url : Option String := none
  error_message : Option String := none
  completed_at : Option Nat := none
  updated_at : Option Nat := none
  processing_started_at : Option Nat := none
  processing_duration : Option Nat := none
  from_cache : Option Bool := none
deriving DecidableEq, Repr

/-- Application of the dynamic `SET` clause of `update_task` to one row. -/
def applyUpdates (r : TaskRow) (u : TaskUpdates) : TaskRow :=
  { r with
    status := u.status.getD r.status
    progress := u.progress.getD r.progress
    result_url := match u.result_url with | some v => some v | none => r.result_url
    error_message := match u.error_message with | some v => some v | none => r.error_message
    completed_at := match u.completed_at with | some v => some v | none => r.completed_at
    updated_at := match u.updated_at with | some v => some v | none => r.updated_at
    processing_started_at := match u.processing_started_at with
      | some v => some v | none => r.processing_started_at
    processing_duration := match u.processing_duration with
      | some v => some v | none => r.processing_duration
    from_cache := u.from_cache.getD r.from_cache }

/-- The committed effect of the dynamic `UPDATE processing_tasks SET ...
WHERE id = ?` statement of `update_task`: every row with the id gets the
present fields overwritten; updating an absent id affects no row and raises
nothing. -/
def set_clause (s : DBState) (task_id : String) (u : TaskUpdates) : DBState :=
  { s with tasks := s.tasks.map (fun r => if r.id = task_id then applyUpdates r u else r) }

/-- The history message of a status update:
`updates.get('error_message', '')` when the new status is `failed`, `None`
otherwise. -/
def status_message (st : TaskStatus) (u : TaskUpdates) : Option String :=
  if st = .failed then some (u.error_message.getD "") else none

/-- `SQLitePersistenceManager.update_task`:
1. the `UPDATE` statement commits on its own connection (`set_clause`);
2. if the dict contains a `status` key, append a status-history entry with
   `status_message` — this is done whether or not the new status differs
   from the current one.  If that insert raises (absent task, foreign-key
   error) the exception is caught and `None` is returned, with the
   already-committed `UPDATE` left in place;
3. return `get_task(task_id)`.
Result: the new store state plus the returned optional task. -/
def update_task (s : DBState) (task_id : String) (u : TaskUpdates) (now : Nat) :
    DBState × Option PTask :=
  match u.status with
  | none => (set_clause s task_id u, get_task (set_clause s task_id u) task_id)
  | some st =>
      match add_status_history (set_clause s task_id u) task_id st
        (status_message st u) now with
      | some s2 => (s2, get_task s2 task_id)
      | none => (set_clause s task_id u, none)

/-- `SQLitePersistenceManager.add_task`: `INSERT INTO processing_tasks ...`
(primary-key conflict — duplicate id — raises, re-raised by `add_task`:
`none` here), then an initial history entry "Task created". -/
def add_task (s : DBState) (r : TaskRow) (now : Nat) : Option DBState :=
  if s.tasks.any (fun row => row.id = r.id) then
    none
  else
    add_status_history { s with tasks := s.tasks ++ [r] } r.id r.status
      (some "Task created") now

/-- `SQLitePersistenceManager.delete_task`: `DELETE FROM processing_tasks
WHERE id = ?`; the `ON DELETE CASCADE` foreign key removes the task's
history rows.  Returns `True` whether or not a row existed. -/
def delete_task (s : DBState) (task_id : String) : DBState × Bool :=
  ({ tasks := s.tasks.filter (fun r => r.id ≠ task_id)
     history := s.history.filter (fun h => h.task_id ≠ task_id) }, true)

/-! ## CacheManager (`utils/redis_client.py`)

The embedding models the self-contained in-memory fallback branch of
`CacheManager` — the branch taken whenever `RedisClient.get_client()` yields
no client (Redis disabled or unreachable); with a reachable backend the same
calls delegate to the external `redis` library.  Values are the Python
values the call sites pass: strings, ints, and flat string-valued dicts. -/

/-- A Python value stored in the cache. -/
inductive PyVal where
| pstr (s : String)
| pint (n : Int)
| pdict (entries : List (String × String))
deriving DecidableEq, Repr

/-- Python truthiness of a cached value (`if value:` / `if cached_data:`). -/
def pyTruthy : PyVal → Bool
| .pstr s => s ≠ ""
| .pint n => n ≠ 0
| .pdict d => d ≠ []

/-- The external library functions the cache layer calls, as parameters:
`hashlib.sha256(...).hexdigest()`, `json.dumps`, `json.loads`
(`loads` is `none` when the string raises `JSONDecodeError`). -/
structure PyLibs where
  sha256hex : String → String
  dumps : PyVal → String
  loads : String → Option PyVal

/-- `CacheManager._memory_cache`: key to raw stored value. -/
def CMem := List (String × PyVal)

/-- `CacheManager.get` (memory fallback): `cls._memory_cache.get(key)` —
the raw stored value, with no JSON parsing. -/
def cm_get (m : CMem) (key : String) : Option PyVal :=
  (m.find? (fun e => e.1 = key)).map (fun e => e.2)

/-- `CacheManager.set` (memory fallback): dicts and lists are first
serialized with `json.dumps`; the (possibly serialized) value then
overwrites any existing entry for the key.  Always returns `True`. -/
def cm_set (dumps : PyVal → String) (m : CMem) (key : String) (value : PyVal) : CMem :=
  let stored := match value with
    | .pdict d => PyVal.pstr (dumps (.pdict d))
    | v => v
  (key, stored) :: m.filter (fun e => e.1 ≠ key)

/-- `CacheManager.delete`: removes the key from the memory cache (and from
Redis when reachable); returns `True` whether or not it was present. -/
def cm_delete (m : CMem) (key : String) : CMem :=
  m.filter (fun e => e.1 ≠ key)

/-- `CacheManager.exists` (memory fallback): `key in cls._memory_cache`. -/
def cm_exists (m : CMem) (key : String) : Bool :=
  m.any (fun e => e.1 = key)

/-- `CacheManager.set_json`: `set(key, json.dumps(value), ttl)` — the value
arrives at `set` already serialized to a string, so it is stored as that
string. -/
def cm_set_json (dumps : PyVal → String) (m : CMem) (key : String) (value : PyVal) : CMem :=
  cm_set dumps m key (.pstr (dumps value))

/-- `CacheManager.get_json`: fetch, then — when the value is truthy — parse
a string with `json.loads` (a parse failure falls through to `None`) or
return a dict as is; any other value yields `None`. -/
def cm_get_json (loads : String → Option PyVal) (m : CMem) (key : String) : Option PyVal :=
  match cm_get m key with
  | some v =>
      if pyTruthy v then
        match v with
        | .pstr s => loads s
        | .pdict d => some (.pdict d)
        | .pint _ => none
      else none
  | none => none

/-! ## OCRCache (`utils/ocr_cache.py`) -/

/-- Python `str` of a bool, as interpolated by
`f"_{extract_type}_{split_pages}"`. -/
def pyBoolStr (b : Bool) : String := if b then "True" else "False"

/-- `OCRCache._calculate_file_hash`: SHA-256 of the file bytes concatenated
with `_{extract_type}_{split_pages}`, truncated to 16 hex characters. -/
def calculate_file_hash (sha : String → String) (content : String)
    (extract_type : String) (split_pages : Bool) : String :=
  (sha (content ++ "_" ++ extract_type ++ "_" ++ pyBoolStr split_pages)).take 16

/-- `OCRCache._generate_cache_key`:
`"ocr:{extract_type}:{split_pages}:{file_hash}"` (the instance's cache
key tag is the literal `"ocr"`). -/
def generate_cache_key (file_hash : String) (extract_type : String)
    (split_pages : Bool) : String :=
  "ocr:" ++ extract_type ++ ":" ++ pyBoolStr split_pages ++ ":" ++ file_hash

/-- `OCRCache.get_cached_result`: hash, build the key, `get_json`; a falsy
cached value counts as a miss. -/
def get_cached_result (L : PyLibs) (m : CMem) (content : String)
    (extract_type : String) (split_pages : Bool) : Option PyVal :=
  let h := calculate_file_hash L.sha256hex content extract_type split_pages
  match cm_get_json L.loads m (generate_cache_key h extract_type split_pages) with
  | some v => if pyTruthy v then some v else none
  | none => none

/-- The body of `OCRCache.cache_result` — what executes when the method is
reached with its four arguments: merge bookkeeping fields into the result
dict and `set_json` it under the fingerprint key. -/
def cache_result_body (L : PyLibs) (m : CMem) (content : String)
    (extract_type : String) (split_pages : Bool)
    (result_data : List (String × String)) (cached_at : Nat) : CMem :=
  let h := calculate_file_hash L.sha256hex content extract_type split_pages
  let cache_data : PyVal := .pdict (result_data ++
    [("cached_at", toString cached_at), ("file_hash", h),
     ("extract_type", extract_type), ("split_pages", pyBoolStr split_pages)])
  cm_set_json L.dumps m (generate_cache_key h extract_type split_pages) cache_data

/-- `OCRCache.invalidate_cache`: delete the fingerprint's key. -/
def invalidate_cache (L : PyLibs) (m : CMem) (content : String)
    (extract_type : String) (split_pages : Bool) : CMem :=
  let h := calculate_file_hash L.sha256hex content extract_type split_pages
  cm_delete m (generate_cache_key h extract_type split_pages)

/-! ## Python positional-argument binding

`api/upload.py:637` invokes `ocr_cache.cache_result(file_content, cache_data)`
while `OCRCache.cache_result(self, file_content, extract_type, split_pages,
result_data)` declares four required parameters beyond `self` and no
defaults.  Python binds a positional call only when the argument count
reaches every required parameter; otherwise the call raises `TypeError`
before the body runs. -/

/-- A positional call with `given` arguments to a function with `required`
mandatory parameters and `optional` defaulted ones binds (runs the body)
iff `required ≤ given ≤ required + optional`. -/
def pyCallBinds (required optional given : Nat) : Bool :=
  decide (required ≤ given) && decide (given ≤ required + optional)

/-- `OCRCache.cache_result` (ocr_cache.py:78): required parameters after
`self`: `file_content`, `extract_type`, `split_pages`, `result_data`. -/
def cacheResultRequired : Nat := 4

/-- `OCRCache.cache_result` declares no defaulted parameters. -/
def cacheResultOptional : Nat := 0

/-- The call site `ocr_cache.cache_result(file_content, cache_data)`
(upload.py:637) supplies two positional arguments. -/
def cacheResultCallArgs : Nat := 2

/-! ## MonkeyOCRClient.process_file (`utils/monkeyocr_client.py`) -/

/-- One response of the external OCR service to a POST of the file:
HTTP 200 (with or without a download URL in the body), HTTP 429
(rate-limited), any other status code (a semantic/API rejection carrying the
status and body text), or an `httpx` timeout. -/
inductive OCRResponse where
| ok (download_url : Option String)
| rateLimited
| httpError (code : Nat) (text : String)
| timeout
deriving DecidableEq, Repr

/-- The exceptions `process_file` raises:
`MonkeyOCRAPIError` or `MonkeyOCRNetworkError`. -/
inductive OCRException where
| apiError (msg : String)
| networkError (msg : String)
deriving DecidableEq, Repr

/-- How a `process_file` call ends: the success dict's download URL
(possibly absent from the body), or the raised exception. -/
inductive OCROutcome where
| success (download_url : Option String)
| raised (e : OCRException)
deriving DecidableEq, Repr

/-- What one `process_file` call did: its outcome, how many POSTs it made,
and the sleeps (in seconds) it performed between attempts. -/
structure OCRCallResult where
  outcome : OCROutcome
  attempts : Nat
  sleeps : List Nat
deriving DecidableEq, Repr

/-- The retry loop of `process_file` (`for attempt in range(self.max_retries)`).
`fuel` is the number of loop iterations remaining; `attempt < max_retries - 1`
is equivalent to the fuel left after this iteration being positive.
- 200: return the success dict (body's `download_url`/`url`, possibly absent);
- 429: sleep `2 ** attempt` and retry, or raise `MonkeyOCRAPIError` on the
  last attempt;
- any other status: sleep 1 and retry, or raise `MonkeyOCRAPIError` with the
  status and body on the last attempt;
- timeout: sleep 2 and retry, or raise `MonkeyOCRNetworkError` on the last
  attempt.
Falling out of the loop (only possible with zero fuel) raises
`MonkeyOCRAPIError("Failed to process file after all retry attempts")`. -/
def process_file_go (resp : Nat → OCRResponse) :
    Nat → Nat → List Nat → OCRCallResult
| attempt, 0, sleeps =>
    { outcome := .raised (.apiError "Failed to process file after all retry attempts")
      attempts := attempt, sleeps := sleeps }
| attempt, fuel + 1, sleeps =>
    match resp attempt with
    | .ok du => { outcome := .success du, attempts := attempt + 1, sleeps := sleeps }
    | .rateLimited =>
        if 0 < fuel then
          process_file_go resp (attempt + 1) fuel (sleeps ++ [2 ^ attempt])
        else
          { outcome := .raised (.apiError "Rate limited by MonkeyOCR API")
            attempts := attempt + 1, sleeps := sleeps }
    | .httpError code text =>
        if 0 < fuel then
          process_file_go resp (attempt + 1) fuel (sleeps ++ [1])
        else
          { outcome := .raised (.apiError
              ("MonkeyOCR API error: " ++ toString code ++ " - " ++ text))
            attempts := attempt + 1, sleeps := sleeps }
    | .timeout =>
        if 0 < fuel then
          process_file_go resp (attempt + 1) fuel (sleeps ++ [2])
        else
          { outcome := .raised (.networkError "MonkeyOCR API request timed out")
            attempts := attempt + 1, sleeps := sleeps }

/-- `MonkeyOCRClient.max_retries = 3`. -/
def maxRetries : Nat := 3

/-- `MonkeyOCRClient.process_file`, as a function of the service's response
to each attempt. -/
def process_file (resp : Nat → OCRResponse) : OCRCallResult :=
  process_file_go resp 0 maxRetries []

/-! ## SyncCoordinator (`api/sync.py`) -/

/-- `sync._calculate_data_hash`, before the final `hashlib.md5`: the string
folded from `(id, status, progress)` of the tasks of
`get_all_tasks()` — called with its default `user_id=None` — in sorted-by-id
order (`for task_id in sorted(all_tasks.keys())`). -/
def data_string (s : DBState) : String :=
  let all_tasks := get_all_tasks s none
  let ids := (all_tasks.map (fun t => t.id)).mergeSort (fun a b => decide (a ≤ b))
  ids.foldl (fun acc i =>
    match all_tasks.find? (fun t => t.id = i) with
    | some t => acc ++ i ++ ":" ++ t.status.toStr ++ ":" ++ toString t.progress ++ ":"
    | none => acc) ""

/-- `sync._calculate_data_hash`: the MD5 hex digest (the external `hashlib`
function, a parameter) of the folded data string. -/
def calculate_data_hash (md5hex : String → String) (s : DBState) : String :=
  md5hex (data_string s)

/-- The task-list portion of `sync.sync_tasks`: fetch the caller's visible
tasks, filter incrementally when `last_sync` was supplied and the visible
list is non-empty — keeping a task iff its `last_modified` is present and
strictly greater than `last_sync`, or its `created_at` is strictly greater —
then sort newest-first by `created_at` (Python's stable sort with
`reverse=True`, which keeps insertion order among equal keys, like the
stable `mergeSort` here). -/
def sync_task_list (s : DBState) (user_id : Option Nat) (last_sync : Option Nat) :
    List PTask :=
  let all_tasks := get_all_tasks s user_id
  let filtered :=
    match last_sync with
    | some ts =>
        if 0 < all_tasks.length then
          all_tasks.filter (fun (t : PTask) =>
            (match t.last_modified with
             | some lm => decide (ts < lm)
             | none => false) ||
            decide (ts < t.created_at))
        else all_tasks
    | none => all_tasks
  filtered.mergeSort (fun a b => decide (b.created_at ≤ a.created_at))

/-- Following the spec's words, for comparison with `sync_task_list`:
"if `sinceTimestamp` given, returns only tasks with `updated_at`/`created_at`
strictly greater" than it, out of the caller's visible set. -/
def sync_spec_since (s : DBState) (user_id : Option Nat) (ts : Nat) : List PTask :=
  (get_all_tasks s user_id).filter (fun (t : PTask) =>
    (match t.updated_at with
     | some ua => decide (ts < ua)
     | none => false) ||
    decide (ts < t.created_at))

/-! ## Upload / delete endpoints and the background scheduler
(`api/upload.py`) -/

/-- Outcome of the `delete_task` endpoint: HTTP 200, 404, or 403. -/
inductive DeleteResult where
| ok
| notFound
| forbidden
deriving DecidableEq, Repr

/-- The authorization and store part of the `delete_task` endpoint
(upload.py:489): 404 when the task is absent; when the task has an owner,
403 unless the requester is authenticated as exactly that owner
(`if not current_user or task.user_id != current_user.get("user_id")`);
an ownerless task is deleted for any requester, anonymous included. -/
def delete_task_endpoint (s : DBState) (task_id : String) (requester : Option Nat) :
    DeleteResult × DBState :=
  match get_task s task_id with
  | none => (.notFound, s)
  | some task =>
      match task.user_id with
      | some owner =>
          if requester = some owner then
            (.ok, (delete_task s task_id).1)
          else
            (.forbidden, s)
      | none => (.ok, (delete_task s task_id).1)

/-- Phase of the per-submission background work.  `checking` covers the
remainder of the upload request handler after the task row is inserted
(save the original file, consult the OCR cache); `queued` is a
`process_file_async` invocation scheduled by `background_tasks.add_task`
and not yet running; `started` is past the transition to `processing` and
awaiting the external call's outcome (it records the wall-clock
`start_time`).  Each submission's work passes through these phases once, in
order — the phases delimit the `await` suspension points at which other
operations may interleave. -/
inductive JobPhase where
| checking
| queued
| started (start_time : Nat)
deriving DecidableEq, Repr

/-- One in-flight submission's remaining work: the task it serves, the file
content it holds, and its phase. -/
structure Job where
  task_id : String
  content : String
  phase : JobPhase
deriving DecidableEq, Repr

/-- The whole system: the SQLite store, the `CacheManager` memory cache,
the original files saved by the upload endpoint
(`file_handler.save_original_file`), the in-flight work, and the set of
task ids ever issued (task ids are `uuid4()` values; freshness of every
newly issued id is the standing assumption the code makes). -/
structure SysState where
  db : DBState
  cache : CMem
  files : List (String × String)
  jobs : List Job
  used : List String

/-- The empty freshly-started system. -/
def initSys : SysState :=
  { db := { tasks := [], history := [] }, cache := [], files := [],
    jobs := [], used := [] }

/-- How one background processing run ends, from `process_file_async`'s
point of view: the external call returned a result whose ZIP was downloaded
(success), or some step raised — a `MonkeyOCRError` after the retry budget,
the `ValueError` for a missing download URL, a download failure — with the
exception's message (failure). -/
inductive BgOutcome where
| success
| failure (msg : String)
deriving DecidableEq, Repr

/-- The observable operations of the task-lifecycle core, one per
suspension-point-delimited segment of the upload path:
`submit` inserts the pending task row; `cacheCheck` finishes the request
handler (its `artifact_ok` says whether `copy_cached_files` succeeds for a
cache hit, i.e. the referenced artifact still exists); `bgStart` and
`bgFinish` are the two halves of `process_file_async`; `del` is the
`delete_task` endpoint. -/
inductive Op where
| submit (task_id : String) (content : String) (user : Option Nat)
    (is_public : Bool) (now : Nat)
| cacheCheck (task_id : String) (artifact_ok : Bool) (now : Nat)
| bgStart (task_id : String) (now : Nat)
| bgFinish (task_id : String) (outcome : BgOutcome) (now : Nat)
| del (task_id : String) (requester : Option Nat)

/-- The fresh-task row the upload endpoint constructs: `status="pending"`,
`progress=0`, `from_cache=False`, owner and visibility from the
authenticated caller (`is_public` is forced to `False` for anonymous
callers). -/
def newTaskRow (task_id : String) (content : String) (user : Option Nat)
    (is_public : Bool) (now : Nat) : TaskRow :=
  { id := task_id
    user_id := user
    filename := content
    file_type := "pdf"
    file_hash := none
    file_size := some content.length
    status := .pending
    progress := 0
    is_public := is_public && user.isSome
    extraction_type := none
    split_pages := false
    total_pages := none
    processing_duration := none
    from_cache := false
    result_url := none
    error_message := none
    created_at := now
    updated_at := some now
    processing_started_at := none
    completed_at := none }

/-- The beginning of the `upload_file` endpoint (upload.py:253): create the
pending task record (`add_task`).  A fresh `uuid4()` id never collides, so
a non-fresh id models no real execution and is a no-op. -/
def submitOp (s : SysState) (task_id : String) (content : String)
    (user : Option Nat) (is_public : Bool) (now : Nat) : SysState :=
  if task_id ∈ s.used then s
  else
    match add_task s.db (newTaskRow task_id content user is_public now) now with
    | none => s
    | some db1 =>
        { db := db1
          cache := s.cache
          files := (task_id, content) :: s.files
          jobs := s.jobs ++ [{ task_id := task_id, content := content, phase := .checking }]
          used := task_id :: s.used }

/-- The update dict of the cache-hit completion (upload.py:372):
`status=completed, progress=100, result_url, completed_at, from_cache=True,
processing_duration=0.1` (near-zero; durations are in milliseconds here)
`, updated_at`. -/
def cacheHitUpdates (task_id : String) (now : Nat) : TaskUpdates :=
  { status := some .completed
    progress := some 100
    result_url := some ("/api/download/" ++ task_id)
    completed_at := some now
    from_cache := some true
    processing_duration := some 100
    updated_at := some now }

/-- The rest of the `upload_file` endpoint, with `settings.redis_enabled` on
and Redis itself unreachable (the memory-fallback cache): consult the OCR
cache and either complete the task immediately from the cache (hit with a
usable artifact), invalidate the stale entry and schedule background
processing (hit whose artifact copy fails), or schedule background
processing (miss). -/
def cacheCheckOp (L : PyLibs) (s : SysState) (task_id : String)
    (artifact_ok : Bool) (now : Nat) : SysState :=
  match s.jobs.find? (fun j => j.task_id = task_id) with
  | some j =>
      match j.phase with
      | .checking =>
          match get_cached_result L s.cache j.content "standard" false with
          | some _ =>
              if artifact_ok then
                { s with
                  db := (update_task s.db task_id (cacheHitUpdates task_id now) now).1
                  jobs := s.jobs.filter (fun j2 => j2.task_id ≠ task_id) }
              else
                { s with
                  cache := invalidate_cache L s.cache j.content "standard" false
                  jobs := s.jobs.map (fun j2 =>
                    if j2.task_id = task_id then { j2 with phase := .queued } else j2) }
          | none =>
              { s with jobs := s.jobs.map (fun j2 =>
                  if j2.task_id = task_id then { j2 with phase := .queued } else j2) }
      | _ => s
  | none => s

/-- The first half of `process_file_async` (upload.py:553): record the start
time, set `status="processing", progress=10, processing_started_at`, then
the pre-call `progress=30` update.  A `bgStart` whose job is not queued
does nothing (each scheduled background task runs once). -/
def bgStartOp (s : SysState) (task_id : String) (now : Nat) : SysState :=
  match s.jobs.find? (fun j => j.task_id = task_id) with
  | some j =>
      match j.phase with
      | .queued =>
          let db1 := (update_task s.db task_id
            { status := some .processing, progress := some 10
              updated_at := some now, processing_started_at := some now } now).1
          let db2 := (update_task db1 task_id
            { progress := some 30, updated_at := some now } now).1
          { s with db := db2
                   jobs := s.jobs.map (fun j2 =>
                     if j2.task_id = task_id then { j2 with phase := .started now } else j2) }
      | _ => s
  | none => s

/-- The update dict of the successful-completion step (upload.py:617). -/
def bgSuccessUpdates (task_id : String) (start_time now : Nat) : TaskUpdates :=
  { status := some .completed
    progress := some 100
    completed_at := some now
    result_url := some ("/api/download/" ++ task_id)
    updated_at := some now
    processing_duration := some ((now - start_time) * 1000) }

/-- The update dict of the failure handler (upload.py:654). -/
def bgFailureUpdates (msg : String) (now : Nat) : TaskUpdates :=
  { status := some .failed
    error_message := some msg
    completed_at := some now
    updated_at := some now }

/-- The attempted result-caching step of `process_file_async`
(upload.py:626): the call `ocr_cache.cache_result(file_content, cache_data)`
binds only if its two positional arguments reach `cache_result`'s four
required parameters; since they do not, the `TypeError` is raised before the
method body runs, caught by the surrounding `except`, and the cache is left
unchanged. -/
def bgCacheStep (L : PyLibs) (m : CMem) (content : String) (task_id : String)
    (now : Nat) : CMem :=
  if pyCallBinds cacheResultRequired cacheResultOptional cacheResultCallArgs then
    cache_result_body L m content "standard" false
      [("local_result_path", "results/" ++ task_id ++ "_result.zip"),
       ("cached_download_url", "/api/download/" ++ task_id)] now
  else m

/-- The second half of `process_file_async`: on success the `progress=70`
update, the completion update, then the result-caching attempt; on any
raised exception the failure update.  A `bgFinish` whose job has not
started does nothing. -/
def bgFinishOp (L : PyLibs) (s : SysState) (task_id : String)
    (outcome : BgOutcome) (now : Nat) : SysState :=
  match s.jobs.find? (fun j => j.task_id = task_id) with
  | some j =>
      match j.phase with
      | .started start_time =>
          let s1 : SysState :=
            { s with jobs := s.jobs.filter (fun j2 => j2.task_id ≠ task_id) }
          match outcome with
          | .success =>
              let db1 := (update_task s1.db task_id
                { progress := some 70, updated_at := some now } now).1
              let db2 := (update_task db1 task_id
                (bgSuccessUpdates task_id start_time now) now).1
              { s1 with db := db2
                        cache := bgCacheStep L s1.cache j.content task_id now }
          | .failure msg =>
              { s1 with db := (update_task s1.db task_id (bgFailureUpdates msg now) now).1 }
      | _ => s
  | none => s

/-- The `delete_task` endpoint acting on the whole system: the
authorization check and store deletion of `delete_task_endpoint`, plus — on
success — the OCR-cache invalidation from the task's original file and the
file cleanup. -/
def delOp (L : PyLibs) (s : SysState) (task_id : String) (requester : Option Nat) :
    SysState :=
  match delete_task_endpoint s.db task_id requester with
  | (.ok, db1) =>
      { s with db := db1
               cache := match s.files.find? (fun f => f.1 = task_id) with
                 | some f => invalidate_cache L s.cache f.2 "standard" false
                 | none => s.cache
               files := s.files.filter (fun f => f.1 ≠ task_id) }
  | (_, _) => s

/-- One step of the system. -/
def step (L : PyLibs) (s : SysState) : Op → SysState
| .submit task_id content user is_public now =>
    submitOp s task_id content user is_public now
| .cacheCheck task_id artifact_ok now => cacheCheckOp L s task_id artifact_ok now
| .bgStart task_id now => bgStartOp s task_id now
| .bgFinish task_id outcome now => bgFinishOp L s task_id outcome now
| .del task_id requester => delOp L s task_id requester

/-- Execution of an operation sequence from the empty system. -/
def run (L : PyLibs) (ops : List Op) : SysState :=
  ops.foldl (step L) initSys

/-- The status of a task's durable record, `none` when no record exists. -/
def statusOf (s : SysState) (task_id : String) : Option TaskStatus :=
  (s.db.tasks.find? (fun r => r.id = task_id)).map (fun r => r.status)

/-- The status edges §4.3 allows: `pending→processing`,
`processing→completed`, `processing→failed`, and the cache-hit shortcut
`pending→completed`. -/
def allowedEdge : TaskStatus → TaskStatus → Bool
| .pending, .processing => true
| .processing, .completed => true
| .processing, .failed => true
| .pending, .completed => true
| _, _ => false

/-- A legal evolution of one task's record across a step: unchanged, a
status change along an allowed edge, record deletion, or creation of a
fresh record in `pending`. -/
def okStep : Option TaskStatus → Option TaskStatus → Prop
| a, b =>
    a = b ∨
    (∃ x y, a = some x ∧ b = some y ∧ allowedEdge x y = true) ∨
    b = none ∨
    (a = none ∧ b = some .pending)

/-! ## Auxiliary definitions for the theorems -/

/-- A sample row used by concrete witnesses and counterexamples. -/
def mkRow (tid : String) (uid : Option Nat) (st : TaskStatus)
    (created : Nat) (updated : Option Nat) (prog : Nat) : TaskRow :=
  { id := tid
    user_id := uid
    filename := "doc.pdf"
    file_type := "pdf"
    file_hash := none
    file_size := some 4
    status := st
    progress := prog
    is_public := false
    extraction_type := none
    split_pages := false
    total_pages := some 1
    processing_duration := none
    from_cache := false
    result_url := none
    error_message := none
    created_at := created
    updated_at := updated
    processing_started_at := none
    completed_at := none }

/-- A faithful rendering of `json.dumps` on the values the call sites
store (flat string dicts; no characters needing escapes occur in them). -/
def jsonDumps : PyVal → String
| .pstr s => "\"" ++ s ++ "\""
| .pint n => toString n
| .pdict d => "\x7b" ++ String.intercalate ", "
    (d.map (fun e => "\"" ++ e.1 ++ "\": \"" ++ e.2 ++ "\"")) ++ "\x7d"

/-- A cache operation, for stating persistence of stored entries. -/
inductive CMOp where
| setOp (key : String) (v : PyVal)
| delOp (key : String)
deriving DecidableEq, Repr

/-- The key a cache operation touches. -/
def CMOp.key : CMOp → String
| .setOp k _ => k
| .delOp k => k

/-- Application of a sequence of cache operations. -/
def applyCMOps (dumps : PyVal → String) (m : CMem) : List CMOp → CMem
| [] => m
| .setOp k v :: ops => applyCMOps dumps (cm_set dumps m k v) ops
| .delOp k :: ops => applyCMOps dumps (cm_delete m k) ops

/-- The status of a task's row in the store, `none` when no row exists. -/
def dbStatus (db : DBState) (task_id : String) : Option TaskStatus :=
  (db.tasks.find? (fun r => r.id = task_id)).map (fun r => r.status)

/-- The task status an in-flight job's phase dictates for its record,
unless the record has been deleted. -/
def phaseStatusOk (db : DBState) (j : Job) : Prop :=
  match j.phase with
  | .checking => dbStatus db j.task_id = some .pending ∨ dbStatus db j.task_id = none
  | .queued => dbStatus db j.task_id = some .pending ∨ dbStatus db j.task_id = none
  | .started _ => dbStatus db j.task_id = some .processing ∨ dbStatus db j.task_id = none

/-- Reachability invariant of the system: every record or job id was issued
once (recorded in `used`, with no duplicates among live jobs or rows), and
each in-flight job's task record is in the status its phase dictates,
unless deleted. -/
def Inv (s : SysState) : Prop :=
  (∀ j ∈ s.jobs, j.task_id ∈ s.used) ∧
  (∀ r ∈ s.db.tasks, r.id ∈ s.used) ∧
  (s.jobs.map (fun j => j.task_id)).Nodup ∧
  (s.db.tasks.map (fun r => r.id)).Nodup ∧
  (∀ j ∈ s.jobs, phaseStatusOk s.db j)

/-! ## Helper lemmas -/

theorem taskOfRow_user_id (s : DBState) (r : TaskRow) :
    (taskOfRow s r).user_id = r.user_id := rfl

theorem taskOfRow_created_at (s : DBState) (r : TaskRow) :
    (taskOfRow s r).created_at = r.created_at := rfl

theorem get_task_eq_none_iff (s : DBState) (tid : String) :
    get_task s tid = none ↔ ∀ r ∈ s.tasks, r.id ≠ tid := by
  simp [get_task, List.find?_eq_none]

theorem get_task_delete_self (s : DBState) (tid : String) :
    get_task (delete_task s tid).1 tid = none := by
  rw [get_task_eq_none_iff]
  intro r hr
  simp only [delete_task, List.mem_filter, decide_not] at hr
  simpa using hr.2

/-! ## Claim theorems -/

/-- C3: the listing operation returns the empty set for an anonymous
caller whatever the store holds; for an authenticated caller it returns
exactly that caller's tasks — every returned task is owned by the caller,
the list is ordered newest-first by creation time, and it is a permutation
of (exactly) the caller-owned rows of the store. -/
theorem listing_visibility (s : DBState) (uid : Nat) :
    get_all_tasks s none = [] ∧
    (∀ t ∈ get_all_tasks s (some uid), t.user_id = some uid) ∧
    (get_all_tasks s (some uid)).Pairwise
      (fun a b => b.created_at ≤ a.created_at) ∧
    (get_all_tasks s (some uid)).Perm
      ((s.tasks.filter (fun r => r.user_id = some uid)).map (taskOfRow s)) := by
  refine ⟨rfl, ?_, ?_, ?_⟩
  · intro t ht
    simp only [get_all_tasks, List.mem_map, List.mem_mergeSort, List.mem_filter] at ht
    obtain ⟨r, ⟨_, hru⟩, rfl⟩ := ht
    rw [taskOfRow_user_id]
    exact of_decide_eq_true hru
  · have hs : ((s.tasks.filter (fun r => r.user_id = some uid)).mergeSort
        createdDesc).Pairwise (fun a b => createdDesc a b) :=
      List.sorted_mergeSort
        (fun a b c hab hbc => by
          simp only [createdDesc, decide_eq_true_eq] at *; omega)
        (fun a b => by
          simp only [createdDesc, Bool.or_eq_true, decide_eq_true_eq]; omega)
        _
    exact List.Pairwise.map _
      (fun a b (h : createdDesc a b = true) => by
        simp only [createdDesc, decide_eq_true_eq] at h
        simpa [taskOfRow_created_at] using h) hs
  · exact (List.mergeSort_perm _ _).map _

/-- C10: for an existing task, deletion by any requester succeeds and
removes the record whenever the task has no owner; the Forbidden outcome
arises exactly when the task has an owner and the requester is not
authenticated as that owner. -/
theorem delete_authorization (s : DBState) (tid : String) (req : Option Nat)
    (t : PTask) (hget : get_task s tid = some t) :
    (t.user_id = none →
      delete_task_endpoint s tid req = (.ok, (delete_task s tid).1) ∧
      get_task (delete_task_endpoint s tid req).2 tid = none) ∧
    ((delete_task_endpoint s tid req).1 = .forbidden ↔
      ∃ owner, t.user_id = some owner ∧ req ≠ some owner) := by
  constructor
  · intro hown
    have h1 : delete_task_endpoint s tid req = (.ok, (delete_task s tid).1) := by
      simp [delete_task_endpoint, hget, hown]
    exact ⟨h1, by rw [h1]; exact get_task_delete_self s tid⟩
  · simp only [delete_task_endpoint, hget]
    cases hown : t.user_id with
    | none => simp
    | some owner =>
        by_cases hreq : req = some owner
        · simp [hreq]
        · simp [hreq]

/-- C10 witness: a store with one ownerless task, deleted by an anonymous
requester. -/
theorem delete_authorization_witness :
    get_task ⟨[mkRow "t" none .pending 0 none 0], []⟩ "t" =
      some (taskOfRow ⟨[mkRow "t" none .pending 0 none 0], []⟩
        (mkRow "t" none .pending 0 none 0)) ∧
    delete_task_endpoint ⟨[mkRow "t" none .pending 0 none 0], []⟩ "t" none =
      (.ok, (delete_task ⟨[mkRow "t" none .pending 0 none 0], []⟩ "t").1) := by
  have h := delete_authorization ⟨[mkRow "t" none .pending 0 none 0], []⟩ "t" none
    (taskOfRow ⟨[mkRow "t" none .pending 0 none 0], []⟩ (mkRow "t" none .pending 0 none 0))
    (by rfl)
  exact ⟨by rfl, (h.1 rfl).1⟩

/-- C8: a status/progress update issued for a task id whose record has been
deleted (or never existed) returns `None` without raising, leaves the task
table without such a record, and changes nothing at all in the store. -/
theorem update_after_delete (s : DBState) (tid : String) (u : TaskUpdates)
    (now : Nat) (habs : get_task s tid = none) :
    (update_task s tid u now).2 = none ∧ (update_task s tid u now).1 = s := by
  have hall : ∀ r ∈ s.tasks, r.id ≠ tid := (get_task_eq_none_iff s tid).mp habs
  have hmap : s.tasks.map
      (fun r => if r.id = tid then applyUpdates r u else r) = s.tasks := by
    have hcong : s.tasks.map
        (fun r => if r.id = tid then applyUpdates r u else r) = s.tasks.map id := by
      apply List.map_congr_left
      intro r hr
      simp [hall r hr]
    simpa using hcong
  have hs1 : set_clause s tid u = s := by
    rw [set_clause, hmap]
  have hany : s.tasks.any (fun r => r.id = tid) = false := by
    simp only [List.any_eq_false, decide_eq_true_eq]
    exact hall
  cases hu : u.status with
  | none =>
      simp only [update_task, hu, hs1]
      exact ⟨habs, trivial⟩
  | some st =>
      have hany2 : (set_clause s tid u).tasks.any (fun r => r.id = tid) = false := by
        rw [hs1]; exact hany
      simp only [update_task, hu, add_status_history, hany2]
      simp [hs1]

/-- C8 witness: updating a task id absent from a concrete store. -/
theorem update_after_delete_witness :
    (update_task ⟨[], []⟩ "gone"
      { status := some .processing, progress := some 10 } 5).2 = none ∧
    (update_task ⟨[], []⟩ "gone"
      { status := some .processing, progress := some 10 } 5).1 = ⟨[], []⟩ := by
  exact update_after_delete ⟨[], []⟩ "gone"
    { status := some .processing, progress := some 10 } 5 (by rfl)

/-- C5 counterexample: a task whose status is `pending` is updated with an
update dict re-writing the same `pending` status; the claim says no
status-history entry is appended, but `update_task` appends one whenever
the dict contains a `status` key, growing the history from 1 to 2 rows. -/
theorem history_rewrite_appends :
    (get_task ⟨[mkRow "t" (some 7) .pending 0 none 0],
        [⟨"t", .pending, some "Task created", 0⟩]⟩ "t").map (fun t => t.status) =
      some .pending ∧
    (update_task ⟨[mkRow "t" (some 7) .pending 0 none 0],
        [⟨"t", .pending, some "Task created", 0⟩]⟩ "t"
      { status := some .pending } 5).1.history.length = 2 := by
  constructor <;> rfl

/-- C5 amended: for an existing task, an update whose dict contains a
`status` key appends exactly one status-history entry — carrying the new
status, the insertion timestamp, and the error message exactly when the new
status is `failed` — whether or not that status differs from the task's
current one; an update without a `status` key appends no entry. -/
theorem history_append_on_status_key (s : DBState) (tid : String)
    (u : TaskUpdates) (now : Nat) (t : PTask) (hget : get_task s tid = some t) :
    (∀ st, u.status = some st →
      (update_task s tid u now).1.history = s.history ++
        [{ task_id := tid, status := st
           message := if st = .failed then some (u.error_message.getD "") else none
           timestamp := now }]) ∧
    (u.status = none → (update_task s tid u now).1.history = s.history) := by
  obtain ⟨r, hfind⟩ : ∃ r, s.tasks.find? (fun row => row.id = tid) = some r := by
    cases hf : s.tasks.find? (fun row => row.id = tid) with
    | none => rw [get_task, hf] at hget; simp at hget
    | some r => exact ⟨r, rfl⟩
  have hrid : r.id = tid := by simpa using List.find?_some hfind
  have hrmem : r ∈ s.tasks := List.mem_of_find?_eq_some hfind
  have hany : (set_clause s tid u).tasks.any (fun row => row.id = tid) = true := by
    rw [set_clause, List.any_eq_true]
    refine ⟨if r.id = tid then applyUpdates r u else r, List.mem_map_of_mem _ hrmem, ?_⟩
    rw [if_pos hrid]
    simpa [applyUpdates] using hrid
  constructor
  · intro st hst
    simp only [update_task, hst, add_status_history, hany, status_message]
    simp [set_clause]
  · intro hst
    simp only [update_task, hst, set_clause]

/-- C5 witness: a status-bearing update of an existing concrete task
appends its one history entry. -/
theorem history_append_on_status_key_witness :
    (update_task ⟨[mkRow "t" (some 7) .pending 0 none 0], []⟩ "t"
      { status := some .processing } 5).1.history =
      [] ++ [{ task_id := "t", status := .processing
               message := none, timestamp := 5 }] := by
  exact (history_append_on_status_key ⟨[mkRow "t" (some 7) .pending 0 none 0], []⟩
    "t" { status := some .processing } 5
    (taskOfRow ⟨[mkRow "t" (some 7) .pending 0 none 0], []⟩
      (mkRow "t" (some 7) .pending 0 none 0)) (by rfl)).1 .processing rfl

/-- C9 counterexample: with the cache backend unreachable (the memory
fallback the module itself implements), storing a dict artifact reference
and looking it up returns the dict's JSON serialization string, not the
stored dict — `store; lookup` does not return `ref` for every `ref`. -/
theorem store_lookup_dict_coerced :
    cm_get (cm_set jsonDumps [] "fp"
        (.pdict [("local_result_path", "results/t_result.zip")])) "fp" =
      some (.pstr (jsonDumps (.pdict [("local_result_path", "results/t_result.zip")]))) ∧
    cm_get (cm_set jsonDumps [] "fp"
        (.pdict [("local_result_path", "results/t_result.zip")])) "fp" ≠
      some (.pdict [("local_result_path", "results/t_result.zip")]) := by
  constructor
  · rfl
  · intro h
    rw [show cm_get (cm_set jsonDumps [] "fp"
        (.pdict [("local_result_path", "results/t_result.zip")])) "fp" =
      some (.pstr (jsonDumps (.pdict [("local_result_path", "results/t_result.zip")]))) from rfl] at h
    simp at h

/-- Lookups at a key are unaffected by filtering out a different key. -/
theorem find_key_filter_ne (m : CMem) (k fp : String) (hk : k ≠ fp) :
    (m.filter (fun e => e.1 ≠ k)).find? (fun e => e.1 = fp) =
      m.find? (fun e => e.1 = fp) := by
  rw [List.find?_filter]
  have hfun : ∀ a : String × PyVal,
      decide (decide (a.1 ≠ k) = true ∧ decide (a.1 = fp) = true) =
        decide (a.1 = fp) := by
    intro a
    rcases eq_or_ne a.1 fp with h | h
    · simp [h, Ne.symm hk]
    · simp [h]
  exact congrArg (fun p => List.find? p m) (funext hfun)

/-- A store under a different fingerprint leaves a lookup unchanged. -/
theorem cm_get_set_other (dumps : PyVal → String) (m : CMem) (k fp : String)
    (v : PyVal) (hk : k ≠ fp) :
    cm_get (cm_set dumps m k v) fp = cm_get m fp := by
  simp only [cm_get, cm_set]
  rw [List.find?_cons_of_neg _ (by simpa using hk), find_key_filter_ne m k fp hk]

/-- An invalidation of a different fingerprint leaves a lookup unchanged. -/
theorem cm_get_delete_other (m : CMem) (k fp : String) (hk : k ≠ fp) :
    cm_get (cm_delete m k) fp = cm_get m fp := by
  simp only [cm_get, cm_delete]
  rw [find_key_filter_ne m k fp hk]

/-- A lookup right after a store of the same fingerprint yields the stored
cell (the value, containers serialized). -/
theorem cm_get_set_self (dumps : PyVal → String) (m : CMem) (fp : String)
    (v : PyVal) :
    cm_get (cm_set dumps m fp v) fp =
      some (match v with | .pdict d => PyVal.pstr (dumps (.pdict d)) | v2 => v2) := by
  simp [cm_get, cm_set]

/-- Operations away from a fingerprint never disturb its entry. -/
theorem cm_get_applyCMOps_other (dumps : PyVal → String) (ops : List CMOp) :
    ∀ (m : CMem) (fp : String), (∀ op ∈ ops, op.key ≠ fp) →
      cm_get (applyCMOps dumps m ops) fp = cm_get m fp := by
  induction ops with
  | nil => intro m fp _; rfl
  | cons op rest ih =>
      intro m fp hops
      cases op with
      | setOp k v =>
          rw [show applyCMOps dumps m (CMOp.setOp k v :: rest) =
            applyCMOps dumps (cm_set dumps m k v) rest from rfl]
          rw [ih _ _ (fun o ho => hops o (List.mem_cons_of_mem _ ho))]
          exact cm_get_set_other dumps m k fp v (hops _ (List.mem_cons_self _ _))
      | delOp k =>
          rw [show applyCMOps dumps m (CMOp.delOp k :: rest) =
            applyCMOps dumps (cm_delete m k) rest from rfl]
          rw [ih _ _ (fun o ho => hops o (List.mem_cons_of_mem _ ho))]
          exact cm_get_delete_other m k fp (hops _ (List.mem_cons_self _ _))

/-- C9 amended: in the memory-fallback cache, a stored string reference is
returned verbatim by lookup, and keeps being returned under any sequence of
stores/invalidations touching other fingerprints, until a later store for
the same fingerprint overwrites it (which any store does) or an
invalidation removes it.  (Dict references are returned as their JSON
serialization instead — see the counterexample.) -/
theorem store_lookup_roundtrip (dumps : PyVal → String) (m : CMem)
    (fp sref : String) (ops : List CMOp) (hops : ∀ op ∈ ops, op.key ≠ fp) :
    cm_get (cm_set dumps m fp (.pstr sref)) fp = some (.pstr sref) ∧
    cm_get (applyCMOps dumps (cm_set dumps m fp (.pstr sref)) ops) fp =
      some (.pstr sref) ∧
    (∀ v, cm_get (cm_set dumps (cm_set dumps m fp (.pstr sref)) fp v) fp =
      cm_get (cm_set dumps m fp v) fp) ∧
    cm_get (cm_delete (cm_set dumps m fp (.pstr sref)) fp) fp = none := by
  refine ⟨cm_get_set_self dumps m fp _, ?_, ?_, ?_⟩
  · rw [cm_get_applyCMOps_other dumps ops _ fp hops]
    exact cm_get_set_self dumps m fp _
  · intro v
    rw [cm_get_set_self _ _ _ v, cm_get_set_self _ _ _ v]
  · simp [cm_get, cm_delete, List.find?_eq_none]

/-- C9 witness: round trip of a concrete string reference through a store,
an unrelated store, an unrelated invalidation, an overwrite and an
invalidation. -/
theorem store_lookup_roundtrip_witness :
    cm_get (cm_set jsonDumps [] "fp" (.pstr "results/a.zip")) "fp" =
      some (.pstr "results/a.zip") ∧
    cm_get (applyCMOps jsonDumps (cm_set jsonDumps [] "fp" (.pstr "results/a.zip"))
      [.setOp "other" (.pstr "x"), .delOp "other2"]) "fp" =
      some (.pstr "results/a.zip") ∧
    (∀ v, cm_get (cm_set jsonDumps (cm_set jsonDumps [] "fp" (.pstr "results/a.zip")) "fp" v) "fp" =
      cm_get (cm_set jsonDumps [] "fp" v) "fp") ∧
    cm_get (cm_delete (cm_set jsonDumps [] "fp" (.pstr "results/a.zip")) "fp") "fp" = none := by
  exact store_lookup_roundtrip jsonDumps [] "fp" "results/a.zip"
    [.setOp "other" (.pstr "x"), .delOp "other2"]
    (by
      intro op hop
      simp only [List.mem_cons, List.not_mem_nil, or_false] at hop
      rcases hop with rfl | rfl
      · decide
      · decide)

/-- C6 counterexample: the external service rejects every attempt with a
semantic HTTP 400 error; the claim says such a rejection is never retried
(one attempt, immediate failure), but `process_file` POSTs 3 times,
sleeping a fixed 1 second between attempts, before raising. -/
theorem semantic_rejection_retried :
    (process_file (fun _ => .httpError 400 "Bad Request")).attempts = 3 ∧
    (process_file (fun _ => .httpError 400 "Bad Request")).outcome =
      .raised (.apiError "MonkeyOCR API error: 400 - Bad Request") ∧
    (process_file (fun _ => .httpError 400 "Bad Request")).sleeps = [1, 1] := by
  refine ⟨rfl, rfl, rfl⟩

/-- Behaviour of the retry loop from any attempt index with positive fuel:
at least one and at most `fuel` more POSTs are made, an exception is raised
only once the budget is exhausted, and every retried attempt follows a
non-200 response. -/
theorem process_file_go_spec (resp : Nat → OCRResponse) :
    ∀ (fuel attempt : Nat) (sleeps : List Nat), 1 ≤ fuel →
      attempt + 1 ≤ (process_file_go resp attempt fuel sleeps).attempts ∧
      (process_file_go resp attempt fuel sleeps).attempts ≤ attempt + fuel ∧
      (∀ e, (process_file_go resp attempt fuel sleeps).outcome = .raised e →
        (process_file_go resp attempt fuel sleeps).attempts = attempt + fuel) ∧
      (∀ i, attempt ≤ i →
        i + 1 < (process_file_go resp attempt fuel sleeps).attempts →
        ∀ du, resp i ≠ .ok du) := by
  intro fuel
  induction fuel with
  | zero => intro attempt sleeps h; omega
  | succ f ih =>
      intro attempt sleeps _
      cases hresp : resp attempt with
      | ok du =>
          refine ⟨?_, ?_, ?_, ?_⟩ <;>
            simp only [process_file_go, hresp]
          · omega
          · omega
          · intro e he; cases he
          · intro i hi hlt; omega
      | rateLimited =>
          by_cases hf : 0 < f
          · have ihf := ih (attempt + 1) (sleeps ++ [2 ^ attempt]) hf
            refine ⟨?_, ?_, ?_, ?_⟩ <;>
              simp only [process_file_go, hresp, if_pos hf]
            · omega
            · omega
            · intro e he
              rw [ihf.2.2.1 e he]; omega
            · intro i hi hlt du
              rcases eq_or_lt_of_le hi with rfl | hi2
              · rw [hresp]; intro hc; cases hc
              · exact ihf.2.2.2 i hi2 hlt du
          · have hf0 : f = 0 := by omega
            subst hf0
            refine ⟨?_, ?_, ?_, ?_⟩ <;>
              simp only [process_file_go, hresp, if_neg hf]
            · omega
            · omega
            · exact fun e _ => trivial
            · intro i hi hlt; omega
      | httpError code text =>
          by_cases hf : 0 < f
          · have ihf := ih (attempt + 1) (sleeps ++ [1]) hf
            refine ⟨?_, ?_, ?_, ?_⟩ <;>
              simp only [process_file_go, hresp, if_pos hf]
            · omega
            · omega
            · intro e he
              rw [ihf.2.2.1 e he]; omega
            · intro i hi hlt du
              rcases eq_or_lt_of_le hi with rfl | hi2
              · rw [hresp]; intro hc; cases hc
              · exact ihf.2.2.2 i hi2 hlt du
          · have hf0 : f = 0 := by omega
            subst hf0
            refine ⟨?_, ?_, ?_, ?_⟩ <;>
              simp only [process_file_go, hresp, if_neg hf]
            · omega
            · omega
            · exact fun e _ => trivial
            · intro i hi hlt; omega
      | timeout =>
          by_cases hf : 0 < f
          · have ihf := ih (attempt + 1) (sleeps ++ [2]) hf
            refine ⟨?_, ?_, ?_, ?_⟩ <;>
              simp only [process_file_go, hresp, if_pos hf]
            · omega
            · omega
            · intro e he
              rw [ihf.2.2.1 e he]; omega
            · intro i hi hlt du
              rcases eq_or_lt_of_le hi with rfl | hi2
              · rw [hresp]; intro hc; cases hc
              · exact ihf.2.2.2 i hi2 hlt du
          · have hf0 : f = 0 := by omega
            subst hf0
            refine ⟨?_, ?_, ?_, ?_⟩ <;>
              simp only [process_file_go, hresp, if_neg hf]
            · omega
            · omega
            · exact fun e _ => trivial
            · intro i hi hlt; omega

/-- C6 amended: the external call is retried — within the 3-attempt budget —
for timeouts, rate-limit responses, and any other non-success response
alike (only the rate-limit branch backs off exponentially; other errors and
timeouts wait a fixed 1 or 2 seconds); an exception, semantic rejections
included, is raised only after all 3 attempts, whereupon
`process_file_async` marks the task failed.  Every retried attempt had
received a non-200 response. -/
theorem retry_budget_uniform (resp : Nat → OCRResponse) :
    1 ≤ (process_file resp).attempts ∧
    (process_file resp).attempts ≤ maxRetries ∧
    (∀ e, (process_file resp).outcome = .raised e →
      (process_file resp).attempts = maxRetries) ∧
    (∀ i, i + 1 < (process_file resp).attempts → ∀ du, resp i ≠ .ok du) := by
  have h := process_file_go_spec resp maxRetries 0 [] (by decide)
  exact ⟨h.1, h.2.1, h.2.2.1, fun i => h.2.2.2 i (Nat.zero_le i)⟩

/-- C2: the change-detection digest is computed over
`get_all_tasks()` with its default anonymous caller, whose visible set is
always empty; hence the folded data string is `""` for every store and the
digest — whatever MD5 maps `""` to — never changes, even across a mutation
of an authenticated caller's visible task's status (here `pending` to
`completed`, visible set of user 7 nonempty), contradicting the claimed
status-sensitivity. -/
theorem digest_ignores_visible_status (md5hex : String → String) :
    (∀ s1 s2 : DBState, calculate_data_hash md5hex s1 = calculate_data_hash md5hex s2) ∧
    (get_all_tasks ⟨[mkRow "t" (some 7) .pending 0 none 0], []⟩ (some 7)).map
      (fun t => t.status) = [.pending] ∧
    (get_all_tasks ⟨[mkRow "t" (some 7) .completed 0 none 100], []⟩ (some 7)).map
      (fun t => t.status) = [.completed] ∧
    calculate_data_hash md5hex ⟨[mkRow "t" (some 7) .pending 0 none 0], []⟩ =
      calculate_data_hash md5hex ⟨[mkRow "t" (some 7) .completed 0 none 100], []⟩ := by
  have hempty : ∀ s : DBState, data_string s = "" := by
    intro s
    simp [data_string, get_all_tasks]
  refine ⟨?_, ?_, ?_, ?_⟩
  · intro s1 s2
    simp [calculate_data_hash, hempty]
  · simp [get_all_tasks, taskOfRow, mkRow]
  · simp [get_all_tasks, taskOfRow, mkRow]
  · simp [calculate_data_hash, hempty]

/-- C7: the incremental sync filter tests `task.last_modified` — a field
with no backing column, `None` on every task read from the store — and
`task.created_at`, not `task.updated_at`.  A task created at time 1 whose
status update set `updated_at = 5` is omitted from a sync with
`last_sync = 3`, though the claim (`updated_at`/`created_at` strictly
greater) requires it to be returned. -/
theorem sync_since_misses_updated_task :
    sync_task_list ⟨[mkRow "t" (some 7) .completed 1 (some 5) 100], []⟩
      (some 7) (some 3) = [] ∧
    sync_spec_since ⟨[mkRow "t" (some 7) .completed 1 (some 5) 100], []⟩
      (some 7) 3 =
      [taskOfRow ⟨[mkRow "t" (some 7) .completed 1 (some 5) 100], []⟩
        (mkRow "t" (some 7) .completed 1 (some 5) 100)] ∧
    (taskOfRow ⟨[mkRow "t" (some 7) .completed 1 (some 5) 100], []⟩
      (mkRow "t" (some 7) .completed 1 (some 5) 100)).updated_at = some 5 ∧
    (taskOfRow ⟨[mkRow "t" (some 7) .completed 1 (some 5) 100], []⟩
      (mkRow "t" (some 7) .completed 1 (some 5) 100)).last_modified = none := by
  refine ⟨?_, ?_, rfl, rfl⟩
  · simp [sync_task_list, get_all_tasks, taskOfRow, mkRow]
  · simp [sync_spec_since, get_all_tasks, taskOfRow, mkRow]

/-- C1: a fresh submission of content `"doc"` (task `t1`) runs background
processing to successful completion, but the result-caching step's call
`ocr_cache.cache_result(file_content, cache_data)` supplies 2 positional
arguments against 4 required parameters, so it raises `TypeError` (caught
and logged) and the ContentCache stays empty.  A second sequential
submission of the identical content and parameters (task `t2`) therefore
misses the cache, stays `pending`, and schedules background processing —
re-invoking the external processor — where the claim requires an immediate
cache-hit completion with no re-invocation. -/
theorem cache_never_populated (L : PyLibs) :
    pyCallBinds cacheResultRequired cacheResultOptional cacheResultCallArgs = false ∧
    statusOf (run L [.submit "t1" "doc" (some 7) false 0, .cacheCheck "t1" true 1,
      .bgStart "t1" 2, .bgFinish "t1" .success 3]) "t1" = some .completed ∧
    (run L [.submit "t1" "doc" (some 7) false 0, .cacheCheck "t1" true 1,
      .bgStart "t1" 2, .bgFinish "t1" .success 3]).cache = [] ∧
    statusOf (run L [.submit "t1" "doc" (some 7) false 0, .cacheCheck "t1" true 1,
      .bgStart "t1" 2, .bgFinish "t1" .success 3,
      .submit "t2" "doc" (some 7) false 4, .cacheCheck "t2" true 5]) "t2" =
      some .pending ∧
    (run L [.submit "t1" "doc" (some 7) false 0, .cacheCheck "t1" true 1,
      .bgStart "t1" 2, .bgFinish "t1" .success 3,
      .submit "t2" "doc" (some 7) false 4, .cacheCheck "t2" true 5]).jobs =
      [{ task_id := "t2", content := "doc", phase := .queued }] := by
  refine ⟨rfl, ?_, ?_, ?_, ?_⟩ <;> rfl

/-! ### Store-level characterizations used for the transition invariant -/

theorem add_status_history_tasks (s : DBState) (tid : String) (st : TaskStatus)
    (msg : Option String) (now : Nat) (s2 : DBState)
    (h : add_status_history s tid st msg now = some s2) : s2.tasks = s.tasks := by
  simp only [add_status_history] at h
  split at h
  · simp only [Option.some.injEq] at h
    subst h
    rfl
  · cases h

theorem update_task_tasks (db : DBState) (tid : String) (u : TaskUpdates) (now : Nat) :
    (update_task db tid u now).1.tasks =
      db.tasks.map (fun r => if r.id = tid then applyUpdates r u else r) := by
  cases hu : u.status with
  | none =>
      simp only [update_task, hu]
      rfl
  | some st =>
      simp only [update_task, hu]
      cases h : add_status_history (set_clause db tid u) tid st
        (status_message st u) now with
      | none => rfl
      | some s2 =>
          have h2 := add_status_history_tasks _ _ _ _ _ _ h
          simpa [set_clause] using h2

theorem find_map_idpres (l : List TaskRow) (f : TaskRow → TaskRow)
    (hf : ∀ r, (f r).id = r.id) (tid : String) :
    (l.map f).find? (fun r => r.id = tid) =
      (l.find? (fun r => r.id = tid)).map f := by
  induction l with
  | nil => rfl
  | cons r rest ih =>
      by_cases h : r.id = tid
      · rw [List.map_cons, List.find?_cons_of_pos _ (by simpa [hf] using h),
          List.find?_cons_of_pos _ (by simpa using h)]
        rfl
      · rw [List.map_cons, List.find?_cons_of_neg _ (by simpa [hf] using h),
          List.find?_cons_of_neg _ (by simpa using h), ih]

theorem ite_applyUpdates_id (tid : String) (u : TaskUpdates) (r : TaskRow) :
    ((if r.id = tid then applyUpdates r u else r) : TaskRow).id = r.id := by
  by_cases h : r.id = tid <;> simp [h, applyUpdates]

theorem dbStatus_update (db : DBState) (tid tid2 : String) (u : TaskUpdates)
    (now : Nat) :
    dbStatus (update_task db tid u now).1 tid2 =
      if tid2 = tid then (dbStatus db tid2).map (fun st => u.status.getD st)
      else dbStatus db tid2 := by
  rw [dbStatus, update_task_tasks, find_map_idpres _ _ (ite_applyUpdates_id tid u)]
  by_cases htid : tid2 = tid
  · rw [if_pos htid, dbStatus]
    cases hf : db.tasks.find? (fun r => r.id = tid2) with
    | none => simp
    | some r =>
        have hrid : r.id = tid2 := by simpa using List.find?_some hf
        simp [hrid, htid, applyUpdates]
  · rw [if_neg htid, dbStatus]
    cases hf : db.tasks.find? (fun r => r.id = tid2) with
    | none => simp
    | some r =>
        have hrid : r.id ≠ tid := by
          rw [show r.id = tid2 by simpa using List.find?_some hf]
          exact htid
        simp [hrid]

theorem find_id_filter_ne (l : List TaskRow) (k fp : String) (hk : k ≠ fp) :
    (l.filter (fun r => r.id ≠ k)).find? (fun r => r.id = fp) =
      l.find? (fun r => r.id = fp) := by
  rw [List.find?_filter]
  have hfun : ∀ r : TaskRow,
      decide (decide (r.id ≠ k) = true ∧ decide (r.id = fp) = true) =
        decide (r.id = fp) := by
    intro r
    rcases eq_or_ne r.id fp with h | h
    · simp [h, Ne.symm hk]
    · simp [h]
  exact congrArg (fun p => List.find? p l) (funext hfun)

theorem dbStatus_delete (db : DBState) (tid tid2 : String) :
    dbStatus (delete_task db tid).1 tid2 =
      if tid2 = tid then none else dbStatus db tid2 := by
  by_cases htid : tid2 = tid
  · subst htid
    rw [if_pos rfl, dbStatus]
    have : (delete_task db tid2).1.tasks.find? (fun r => r.id = tid2) = none := by
      rw [List.find?_eq_none]
      intro r hr
      simp only [delete_task, List.mem_filter, decide_not] at hr
      simpa using hr.2
    rw [this]
    rfl
  · rw [if_neg htid, dbStatus, dbStatus]
    rw [show (delete_task db tid).1.tasks =
      db.tasks.filter (fun r => r.id ≠ tid) from rfl]
    rw [find_id_filter_ne db.tasks tid tid2 (fun h => htid h.symm)]

theorem add_task_some (db : DBState) (r : TaskRow) (now : Nat)
    (hfresh : db.tasks.any (fun row => row.id = r.id) = false) :
    ∃ db2, add_task db r now = some db2 ∧ db2.tasks = db.tasks ++ [r] := by
  simp only [add_task, hfresh]
  simp only [Bool.false_eq_true, if_false]
  have hmem : (db.tasks ++ [r]).any (fun row => row.id = r.id) = true := by
    rw [List.any_eq_true]
    exact ⟨r, by simp, by simp⟩
  simp only [add_status_history, hmem, if_true]
  exact ⟨_, rfl, rfl⟩

theorem dbStatus_append_new (db : DBState) (r : TaskRow)
    (hfresh : db.tasks.any (fun row => row.id = r.id) = false) (tid2 : String) :
    ((db.tasks ++ [r]).find? (fun row => row.id = tid2)).map (fun row => row.status) =
      if tid2 = r.id then some r.status else dbStatus db tid2 := by
  rw [List.find?_append]
  by_cases htid : tid2 = r.id
  · have hnone : db.tasks.find? (fun row => row.id = tid2) = none := by
      rw [List.find?_eq_none]
      intro x hx
      have hx2 := List.any_eq_false.mp hfresh x hx
      rw [htid]
      simpa using hx2
    rw [hnone, if_pos htid]
    simp [htid]
  · rw [if_neg htid, dbStatus]
    have hsingle : ([r].find? (fun row => row.id = tid2)) = none := by
      rw [List.find?_eq_none]
      intro x hx
      simp only [List.mem_singleton] at hx
      subst hx
      simpa using fun h => htid h.symm
    rw [hsingle]
    simp

theorem okStep_refl (a : Option TaskStatus) : okStep a a := Or.inl rfl

theorem okStep_to_none (a : Option TaskStatus) : okStep a none :=
  Or.inr (Or.inr (Or.inl rfl))

theorem okStep_edge {x y : TaskStatus} (h : allowedEdge x y = true) :
    okStep (some x) (some y) := Or.inr (Or.inl ⟨x, y, rfl, rfl, h⟩)

theorem okStep_create : okStep none (some .pending) :=
  Or.inr (Or.inr (Or.inr ⟨rfl, rfl⟩))

theorem statusOf_eq_dbStatus (s : SysState) (tid : String) :
    statusOf s tid = dbStatus s.db tid := rfl

theorem phaseStatusOk_of_eq {db db2 : DBState} {j : Job}
    (h : dbStatus db2 j.task_id = dbStatus db j.task_id)
    (hp : phaseStatusOk db j) : phaseStatusOk db2 j := by
  cases hph : j.phase <;> simp only [phaseStatusOk, hph, h] at hp ⊢ <;> exact hp

theorem submit_sound (s : SysState) (tid c : String) (user : Option Nat)
    (pub : Bool) (now : Nat) (hInv : Inv s) :
    (∀ t, okStep (statusOf s t) (statusOf (submitOp s tid c user pub now) t)) ∧
    Inv (submitOp s tid c user pub now) := by
  obtain ⟨hju, hru, hjn, hrn, hph⟩ := hInv
  by_cases hused : tid ∈ s.used
  · simp only [submitOp, if_pos hused]
    exact ⟨fun t => okStep_refl _, ⟨hju, hru, hjn, hrn, hph⟩⟩
  · have hids : ∀ r ∈ s.db.tasks, r.id ≠ tid := by
      intro r hr hcon
      exact hused (hcon ▸ hru r hr)
    have hfresh : s.db.tasks.any
        (fun row => row.id = (newTaskRow tid c user pub now).id) = false := by
      rw [List.any_eq_false]
      intro r hr
      simpa [newTaskRow] using hids r hr
    obtain ⟨db2, hadd, htasks⟩ := add_task_some s.db (newTaskRow tid c user pub now) now hfresh
    simp only [submitOp, if_neg hused, hadd]
    have hstat : ∀ t, dbStatus db2 t =
        if t = tid then some .pending else dbStatus s.db t := by
      intro t
      rw [dbStatus, htasks]
      have h2 := dbStatus_append_new s.db (newTaskRow tid c user pub now) hfresh t
      exact h2
    have hbefore : dbStatus s.db tid = none := by
      rw [dbStatus, List.find?_eq_none.mpr (by
        intro r hr
        simpa using hids r hr)]
      rfl
    have hjids : ∀ x ∈ s.jobs.map (fun j => j.task_id), x ∈ s.used := by
      intro x hx
      obtain ⟨j, hj, rfl⟩ := List.mem_map.mp hx
      exact hju j hj
    refine ⟨?_, ?_, ?_, ?_, ?_, ?_⟩
    · intro t
      rw [statusOf_eq_dbStatus, statusOf_eq_dbStatus]
      show okStep (dbStatus s.db t) (dbStatus db2 t)
      rw [hstat t]
      by_cases ht : t = tid
      · rw [if_pos ht, ht, hbefore]
        exact okStep_create
      · rw [if_neg ht]
        exact okStep_refl _
    · intro j hj
      rcases List.mem_append.mp hj with hj2 | hj2
      · exact List.mem_cons_of_mem _ (hju j hj2)
      · simp only [List.mem_singleton] at hj2
        subst hj2
        exact List.mem_cons_self _ _
    · intro r hr
      rw [htasks] at hr
      rcases List.mem_append.mp hr with hr2 | hr2
      · exact List.mem_cons_of_mem _ (hru r hr2)
      · simp only [List.mem_singleton] at hr2
        subst hr2
        exact List.mem_cons_self _ _
    · rw [List.map_append, List.nodup_append]
      refine ⟨hjn, List.nodup_singleton _, ?_⟩
      intro x hx hx2
      simp only [List.map_cons, List.map_nil, List.mem_singleton] at hx2
      subst hx2
      exact hused (hjids _ hx)
    · rw [htasks, List.map_append, List.nodup_append]
      refine ⟨hrn, List.nodup_singleton _, ?_⟩
      intro x hx hx2
      simp only [List.map_cons, List.map_nil, List.mem_singleton] at hx2
      obtain ⟨r, hr, rfl⟩ := List.mem_map.mp hx
      exact hids r hr (by simpa [newTaskRow] using hx2)
    · intro j hj
      rcases List.mem_append.mp hj with hj2 | hj2
      · refine phaseStatusOk_of_eq ?_ (hph j hj2)
        rw [hstat]
        rw [if_neg (fun hcon => hused (by rw [← hcon]; exact hju j hj2))]
      · simp only [List.mem_singleton] at hj2
        subst hj2
        show phaseStatusOk db2 _
        simp only [phaseStatusOk]
        left
        rw [hstat, if_pos rfl]

theorem map_ids_update (l : List TaskRow) (tid : String) (u : TaskUpdates) :
    (l.map (fun r => if r.id = tid then applyUpdates r u else r)).map
      (fun r => r.id) = l.map (fun r => r.id) := by
  rw [List.map_map]
  apply List.map_congr_left
  intro r _
  exact ite_applyUpdates_id tid u r

theorem update_task_ids (db : DBState) (tid : String) (u : TaskUpdates) (now : Nat) :
    (update_task db tid u now).1.tasks.map (fun r => r.id) =
      db.tasks.map (fun r => r.id) := by
  rw [update_task_tasks]
  exact map_ids_update db.tasks tid u

theorem mem_used_of_ids {s : SysState} (hru : ∀ r ∈ s.db.tasks, r.id ∈ s.used)
    {db2 : DBState}
    (hids : db2.tasks.map (fun r => r.id) = s.db.tasks.map (fun r => r.id)) :
    ∀ r ∈ db2.tasks, r.id ∈ s.used := by
  intro r hr
  have : r.id ∈ db2.tasks.map (fun r => r.id) := List.mem_map_of_mem _ hr
  rw [hids] at this
  obtain ⟨r0, hr0, hid⟩ := List.mem_map.mp this
  rw [← hid]
  exact hru r0 hr0

/-- Soundness of a step that updates the record of `tid` to a new status
along an allowed edge and removes `tid`'s job. -/
theorem sound_finish (s : SysState) (tid : String) (db2 : DBState)
    (cache2 : CMem) (files2 : List (String × String)) (hInv : Inv s)
    (hids : db2.tasks.map (fun r => r.id) = s.db.tasks.map (fun r => r.id))
    (hstat_other : ∀ t, t ≠ tid → dbStatus db2 t = dbStatus s.db t)
    (hok_tid : okStep (dbStatus s.db tid) (dbStatus db2 tid)) :
    (∀ t, okStep (statusOf s t)
      (statusOf ⟨db2, cache2, files2,
        s.jobs.filter (fun j2 => j2.task_id ≠ tid), s.used⟩ t)) ∧
    Inv ⟨db2, cache2, files2,
      s.jobs.filter (fun j2 => j2.task_id ≠ tid), s.used⟩ := by
  obtain ⟨hju, hru, hjn, hrn, hph⟩ := hInv
  refine ⟨?_, ?_, mem_used_of_ids hru hids, ?_, ?_, ?_⟩
  · intro t
    rw [statusOf_eq_dbStatus, statusOf_eq_dbStatus]
    by_cases ht : t = tid
    · subst ht; exact hok_tid
    · rw [show dbStatus (⟨db2, cache2, files2,
        s.jobs.filter (fun j2 => j2.task_id ≠ tid), s.used⟩ : SysState).db t =
          dbStatus db2 t from rfl, hstat_other t ht]
      exact okStep_refl _
  · intro j hj
    exact hju j (List.mem_of_mem_filter hj)
  · exact List.Nodup.sublist ((List.filter_sublist _).map _) hjn
  · rw [show (⟨db2, cache2, files2, s.jobs.filter (fun j2 => j2.task_id ≠ tid),
      s.used⟩ : SysState).db.tasks = db2.tasks from rfl, hids]
    exact hrn
  · intro j hj
    have hjmem : j ∈ s.jobs := List.mem_of_mem_filter hj
    have hjne : j.task_id ≠ tid := by
      have := List.of_mem_filter hj
      simpa using this
    exact phaseStatusOk_of_eq (hstat_other _ hjne) (hph j hjmem)

/-- Soundness of a step that advances `tid`'s job to a new phase (possibly
updating the record of `tid` along an allowed edge). -/
theorem sound_phase_map (s : SysState) (tid : String) (db2 : DBState)
    (cache2 : CMem) (files2 : List (String × String)) (newPhase : JobPhase)
    (hInv : Inv s)
    (hids : db2.tasks.map (fun r => r.id) = s.db.tasks.map (fun r => r.id))
    (hstat_other : ∀ t, t ≠ tid → dbStatus db2 t = dbStatus s.db t)
    (hok_tid : okStep (dbStatus s.db tid) (dbStatus db2 tid))
    (hnewreq : ∀ j2 : Job, j2.task_id = tid →
      phaseStatusOk db2 { j2 with phase := newPhase }) :
    (∀ t, okStep (statusOf s t)
      (statusOf ⟨db2, cache2, files2,
        s.jobs.map (fun j2 => if j2.task_id = tid
          then { j2 with phase := newPhase } else j2), s.used⟩ t)) ∧
    Inv ⟨db2, cache2, files2,
      s.jobs.map (fun j2 => if j2.task_id = tid
        then { j2 with phase := newPhase } else j2), s.used⟩ := by
  obtain ⟨hju, hru, hjn, hrn, hph⟩ := hInv
  have hgid : ∀ j2 : Job, ((if j2.task_id = tid
      then { j2 with phase := newPhase } else j2) : Job).task_id = j2.task_id := by
    intro j2
    by_cases h : j2.task_id = tid <;> simp [h]
  refine ⟨?_, ?_, mem_used_of_ids hru hids, ?_, ?_, ?_⟩
  · intro t
    rw [statusOf_eq_dbStatus, statusOf_eq_dbStatus]
    by_cases ht : t = tid
    · subst ht; exact hok_tid
    · rw [show dbStatus (⟨db2, cache2, files2, s.jobs.map (fun j2 =>
        if j2.task_id = tid then { j2 with phase := newPhase } else j2),
          s.used⟩ : SysState).db t = dbStatus db2 t from rfl, hstat_other t ht]
      exact okStep_refl _
  · intro j hj
    obtain ⟨j0, hj0, rfl⟩ := List.mem_map.mp hj
    rw [show ((if j0.task_id = tid then { j0 with phase := newPhase } else j0) :
      Job).task_id = j0.task_id from hgid j0]
    exact hju j0 hj0
  · rw [show (s.jobs.map (fun j2 => if j2.task_id = tid
      then { j2 with phase := newPhase } else j2)).map (fun j => j.task_id) =
        s.jobs.map (fun j => j.task_id) by
      rw [List.map_map]
      apply List.map_congr_left
      intro j2 _
      exact hgid j2]
    exact hjn
  · rw [show (⟨db2, cache2, files2, s.jobs.map (fun j2 => if j2.task_id = tid
      then { j2 with phase := newPhase } else j2),
        s.used⟩ : SysState).db.tasks = db2.tasks from rfl, hids]
    exact hrn
  · intro j hj
    obtain ⟨j0, hj0, rfl⟩ := List.mem_map.mp hj
    by_cases h : j0.task_id = tid
    · rw [if_pos h]
      exact hnewreq j0 h
    · rw [if_neg h]
      exact phaseStatusOk_of_eq (hstat_other _ h) (hph j0 hj0)

theorem phaseStatusOk_of_none {db2 : DBState} {j : Job}
    (h : dbStatus db2 j.task_id = none) : phaseStatusOk db2 j := by
  cases hp : j.phase <;> simp only [phaseStatusOk, hp] <;> right <;> exact h

theorem cacheCheck_sound (L : PyLibs) (s : SysState) (tid : String) (ok : Bool)
    (now : Nat) (hInv : Inv s) :
    (∀ t, okStep (statusOf s t) (statusOf (cacheCheckOp L s tid ok now) t)) ∧
    Inv (cacheCheckOp L s tid ok now) := by
  cases hj : s.jobs.find? (fun j => j.task_id = tid) with
  | none =>
      simp only [cacheCheckOp, hj]
      exact ⟨fun t => okStep_refl _, hInv⟩
  | some j =>
      have hjmem : j ∈ s.jobs := List.mem_of_find?_eq_some hj
      have hjtid : j.task_id = tid := by simpa using List.find?_some hj
      cases hphase : j.phase with
      | queued =>
          simp only [cacheCheckOp, hj, hphase]
          exact ⟨fun t => okStep_refl _, hInv⟩
      | started st0 =>
          simp only [cacheCheckOp, hj, hphase]
          exact ⟨fun t => okStep_refl _, hInv⟩
      | checking =>
          have hpre : dbStatus s.db tid = some .pending ∨ dbStatus s.db tid = none := by
            have hp := hInv.2.2.2.2 j hjmem
            simp only [phaseStatusOk, hphase] at hp
            rwa [hjtid] at hp
          have hnewq : ∀ j2 : Job, j2.task_id = tid →
              phaseStatusOk s.db { j2 with phase := JobPhase.queued } := by
            intro j2 h2
            simp only [phaseStatusOk]
            rw [show ({ j2 with phase := JobPhase.queued } : Job).task_id =
              j2.task_id from rfl, h2]
            exact hpre
          cases hcache : get_cached_result L s.cache j.content "standard" false with
          | none =>
              simp only [cacheCheckOp, hj, hphase, hcache]
              exact sound_phase_map s tid s.db s.cache s.files .queued
                ⟨hInv.1, hInv.2.1, hInv.2.2.1, hInv.2.2.2.1, hInv.2.2.2.2⟩
                rfl (fun _ _ => rfl) (okStep_refl _) hnewq
          | some v =>
              cases ok with
              | false =>
                  simp only [cacheCheckOp, hj, hphase, hcache, Bool.false_eq_true,
                    if_false]
                  exact sound_phase_map s tid s.db
                    (invalidate_cache L s.cache j.content "standard" false) s.files
                    .queued ⟨hInv.1, hInv.2.1, hInv.2.2.1, hInv.2.2.2.1, hInv.2.2.2.2⟩
                    rfl (fun _ _ => rfl) (okStep_refl _) hnewq
              | true =>
                  simp only [cacheCheckOp, hj, hphase, hcache, if_true]
                  have hstat_other : ∀ t, t ≠ tid →
                      dbStatus (update_task s.db tid (cacheHitUpdates tid now) now).1 t =
                        dbStatus s.db t := by
                    intro t ht
                    rw [dbStatus_update, if_neg ht]
                  have hok : okStep (dbStatus s.db tid)
                      (dbStatus (update_task s.db tid (cacheHitUpdates tid now) now).1 tid) := by
                    rw [dbStatus_update, if_pos rfl]
                    rcases hpre with h | h <;> rw [h]
                    · exact okStep_edge rfl
                    · exact okStep_refl _
                  exact sound_finish s tid
                    (update_task s.db tid (cacheHitUpdates tid now) now).1
                    s.cache s.files
                    ⟨hInv.1, hInv.2.1, hInv.2.2.1, hInv.2.2.2.1, hInv.2.2.2.2⟩
                    (update_task_ids s.db tid (cacheHitUpdates tid now) now)
                    hstat_other hok

theorem bgStart_sound (s : SysState) (tid : String) (now : Nat) (hInv : Inv s) :
    (∀ t, okStep (statusOf s t) (statusOf (bgStartOp s tid now) t)) ∧
    Inv (bgStartOp s tid now) := by
  cases hj : s.jobs.find? (fun j => j.task_id = tid) with
  | none =>
      simp only [bgStartOp, hj]
      exact ⟨fun t => okStep_refl _, hInv⟩
  | some j =>
      have hjmem : j ∈ s.jobs := List.mem_of_find?_eq_some hj
      have hjtid : j.task_id = tid := by simpa using List.find?_some hj
      cases hphase : j.phase with
      | checking =>
          simp only [bgStartOp, hj, hphase]
          exact ⟨fun t => okStep_refl _, hInv⟩
      | started st0 =>
          simp only [bgStartOp, hj, hphase]
          exact ⟨fun t => okStep_refl _, hInv⟩
      | queued =>
          have hpre : dbStatus s.db tid = some .pending ∨ dbStatus s.db tid = none := by
            have hp := hInv.2.2.2.2 j hjmem
            simp only [phaseStatusOk, hphase] at hp
            rwa [hjtid] at hp
          simp only [bgStartOp, hj, hphase]
          have hstat : ∀ t, dbStatus (update_task (update_task s.db tid
              { status := some .processing, progress := some 10
                updated_at := some now, processing_started_at := some now } now).1
              tid { progress := some 30, updated_at := some now } now).1 t =
              if t = tid then (dbStatus s.db t).map (fun _ => TaskStatus.processing)
              else dbStatus s.db t := by
            intro t
            by_cases ht : t = tid
            · rw [dbStatus_update, if_pos ht, dbStatus_update, if_pos ht, if_pos ht]
              cases dbStatus s.db t <;> simp
            · rw [dbStatus_update, if_neg ht, dbStatus_update, if_neg ht, if_neg ht]
          have hok : okStep (dbStatus s.db tid)
              (dbStatus (update_task (update_task s.db tid
                { status := some .processing, progress := some 10
                  updated_at := some now, processing_started_at := some now } now).1
                tid { progress := some 30, updated_at := some now } now).1 tid) := by
            rw [hstat tid, if_pos rfl]
            rcases hpre with h | h <;> rw [h]
            · exact okStep_edge rfl
            · exact okStep_refl _
          refine sound_phase_map s tid _ s.cache s.files (.started now)
            ⟨hInv.1, hInv.2.1, hInv.2.2.1, hInv.2.2.2.1, hInv.2.2.2.2⟩
            ?_ (fun t ht => by rw [hstat t, if_neg ht]) hok ?_
          · rw [update_task_ids, update_task_ids]
          · intro j2 h2
            simp only [phaseStatusOk]
            rw [show ({ j2 with phase := JobPhase.started now } : Job).task_id =
              j2.task_id from rfl, h2, hstat tid, if_pos rfl]
            rcases hpre with h | h <;> rw [h]
            · left; rfl
            · right; rfl

theorem bgFinish_sound (L : PyLibs) (s : SysState) (tid : String)
    (outcome : BgOutcome) (now : Nat) (hInv : Inv s) :
    (∀ t, okStep (statusOf s t) (statusOf (bgFinishOp L s tid outcome now) t)) ∧
    Inv (bgFinishOp L s tid outcome now) := by
  cases hj : s.jobs.find? (fun j => j.task_id = tid) with
  | none =>
      simp only [bgFinishOp, hj]
      exact ⟨fun t => okStep_refl _, hInv⟩
  | some j =>
      have hjmem : j ∈ s.jobs := List.mem_of_find?_eq_some hj
      have hjtid : j.task_id = tid := by simpa using List.find?_some hj
      cases hphase : j.phase with
      | checking =>
          simp only [bgFinishOp, hj, hphase]
          exact ⟨fun t => okStep_refl _, hInv⟩
      | queued =>
          simp only [bgFinishOp, hj, hphase]
          exact ⟨fun t => okStep_refl _, hInv⟩
      | started st0 =>
          have hpre : dbStatus s.db tid = some .processing ∨ dbStatus s.db tid = none := by
            have hp := hInv.2.2.2.2 j hjmem
            simp only [phaseStatusOk, hphase] at hp
            rwa [hjtid] at hp
          cases outcome with
          | success =>
              simp only [bgFinishOp, hj, hphase]
              have hstat : ∀ t, dbStatus (update_task (update_task s.db tid
                  { progress := some 70, updated_at := some now } now).1 tid
                  (bgSuccessUpdates tid st0 now) now).1 t =
                  if t = tid then (dbStatus s.db t).map (fun _ => TaskStatus.completed)
                  else dbStatus s.db t := by
                intro t
                by_cases ht : t = tid
                · rw [dbStatus_update, if_pos ht, dbStatus_update, if_pos ht, if_pos ht]
                  cases dbStatus s.db t <;> simp [bgSuccessUpdates]
                · rw [dbStatus_update, if_neg ht, dbStatus_update, if_neg ht, if_neg ht]
              have hok : okStep (dbStatus s.db tid)
                  (dbStatus (update_task (update_task s.db tid
                    { progress := some 70, updated_at := some now } now).1 tid
                    (bgSuccessUpdates tid st0 now) now).1 tid) := by
                rw [hstat tid, if_pos rfl]
                rcases hpre with h | h <;> rw [h]
                · exact okStep_edge rfl
                · exact okStep_refl _
              exact sound_finish s tid _ _ _
                ⟨hInv.1, hInv.2.1, hInv.2.2.1, hInv.2.2.2.1, hInv.2.2.2.2⟩
                (by rw [update_task_ids, update_task_ids])
                (fun t ht => by rw [hstat t, if_neg ht]) hok
          | failure msg =>
              simp only [bgFinishOp, hj, hphase]
              have hstat : ∀ t, dbStatus (update_task s.db tid
                  (bgFailureUpdates msg now) now).1 t =
                  if t = tid then (dbStatus s.db t).map (fun _ => TaskStatus.failed)
                  else dbStatus s.db t := by
                intro t
                by_cases ht : t = tid
                · rw [dbStatus_update, if_pos ht, if_pos ht]
                  cases dbStatus s.db t <;> simp [bgFailureUpdates]
                · rw [dbStatus_update, if_neg ht, if_neg ht]
              have hok : okStep (dbStatus s.db tid)
                  (dbStatus (update_task s.db tid (bgFailureUpdates msg now) now).1 tid) := by
                rw [hstat tid, if_pos rfl]
                rcases hpre with h | h <;> rw [h]
                · exact okStep_edge rfl
                · exact okStep_refl _
              exact sound_finish s tid _ _ _
                ⟨hInv.1, hInv.2.1, hInv.2.2.1, hInv.2.2.2.1, hInv.2.2.2.2⟩
                (by rw [update_task_ids])
                (fun t ht => by rw [hstat t, if_neg ht]) hok

theorem del_ok_sound (s : SysState) (tid : String) (cache2 : CMem)
    (files2 : List (String × String)) (hInv : Inv s) :
    (∀ t, okStep (statusOf s t)
      (statusOf ⟨(delete_task s.db tid).1, cache2, files2, s.jobs, s.used⟩ t)) ∧
    Inv ⟨(delete_task s.db tid).1, cache2, files2, s.jobs, s.used⟩ := by
  obtain ⟨hju, hru, hjn, hrn, hph⟩ := hInv
  have hstat : ∀ t, dbStatus (delete_task s.db tid).1 t =
      if t = tid then none else dbStatus s.db t := fun t => dbStatus_delete s.db tid t
  refine ⟨?_, hju, ?_, hjn, ?_, ?_⟩
  · intro t
    rw [statusOf_eq_dbStatus, statusOf_eq_dbStatus]
    show okStep (dbStatus s.db t) (dbStatus (delete_task s.db tid).1 t)
    rw [hstat t]
    by_cases ht : t = tid
    · rw [if_pos ht]
      exact okStep_to_none _
    · rw [if_neg ht]
      exact okStep_refl _
  · intro r hr
    exact hru r (List.mem_of_mem_filter hr)
  · exact List.Nodup.sublist ((List.filter_sublist _).map _) hrn
  · intro j hj
    by_cases ht : j.task_id = tid
    · exact phaseStatusOk_of_none (by rw [hstat, if_pos ht])
    · exact phaseStatusOk_of_eq (by rw [hstat, if_neg ht]) (hph j hj)

theorem del_sound (L : PyLibs) (s : SysState) (tid : String) (req : Option Nat)
    (hInv : Inv s) :
    (∀ t, okStep (statusOf s t) (statusOf (delOp L s tid req) t)) ∧
    Inv (delOp L s tid req) := by
  cases hget : get_task s.db tid with
  | none =>
      have hend : delete_task_endpoint s.db tid req = (.notFound, s.db) := by
        simp [delete_task_endpoint, hget]
      simp only [delOp, hend]
      exact ⟨fun t => okStep_refl _, hInv⟩
  | some t0 =>
      cases hu : t0.user_id with
      | none =>
          have hend : delete_task_endpoint s.db tid req =
              (.ok, (delete_task s.db tid).1) := by
            simp [delete_task_endpoint, hget, hu]
          simp only [delOp, hend]
          exact del_ok_sound s tid _ _ hInv
      | some owner =>
          by_cases hreq : req = some owner
          · have hend : delete_task_endpoint s.db tid req =
                (.ok, (delete_task s.db tid).1) := by
              simp [delete_task_endpoint, hget, hu, hreq]
            simp only [delOp, hend]
            exact del_ok_sound s tid _ _ hInv
          · have hend : delete_task_endpoint s.db tid req = (.forbidden, s.db) := by
              simp [delete_task_endpoint, hget, hu, hreq]
            simp only [delOp, hend]
            exact ⟨fun t => okStep_refl _, hInv⟩

theorem step_sound (L : PyLibs) (s : SysState) (op : Op) (hInv : Inv s) :
    (∀ t, okStep (statusOf s t) (statusOf (step L s op) t)) ∧ Inv (step L s op) := by
  cases op with
  | submit tid c user pub now => exact submit_sound s tid c user pub now hInv
  | cacheCheck tid ok now => exact cacheCheck_sound L s tid ok now hInv
  | bgStart tid now => exact bgStart_sound s tid now hInv
  | bgFinish tid outcome now => exact bgFinish_sound L s tid outcome now hInv
  | del tid req => exact del_sound L s tid req hInv

theorem inv_init : Inv initSys := by
  refine ⟨?_, ?_, ?_, ?_, ?_⟩ <;> simp [initSys, Inv]

theorem inv_foldl (L : PyLibs) (ops : List Op) :
    ∀ s : SysState, Inv s → Inv (ops.foldl (step L) s) := by
  induction ops with
  | nil => intro s h; exact h
  | cons op rest ih =>
      intro s h
      exact ih _ (step_sound L s op h).2

theorem inv_run (L : PyLibs) (ops : List Op) : Inv (run L ops) :=
  inv_foldl L ops initSys inv_init

/-- C4: in every reachable system state (any operation sequence from the
empty system) and under every next operation, each task record's status
either stays put, moves along one of the allowed edges
`pending→processing`, `processing→completed`, `processing→failed`,
`pending→completed` (the cache-hit shortcut), is deleted outright, or comes
into existence as `pending`; in particular a record in a terminal status
(`completed`/`failed`) is never re-written to any other status — it can
only persist unchanged or be deleted. -/
theorem status_transitions_allowed (L : PyLibs) (ops : List Op) (op : Op)
    (tid : String) :
    okStep (statusOf (run L ops) tid) (statusOf (step L (run L ops) op) tid) ∧
    (∀ st, statusOf (run L ops) tid = some st →
      (st = .completed ∨ st = .failed) →
      statusOf (step L (run L ops) op) tid = some st ∨
      statusOf (step L (run L ops) op) tid = none) := by
  have h := (step_sound L (run L ops) op (inv_run L ops)).1 tid
  refine ⟨h, ?_⟩
  intro st hst hterm
  rcases h with heq | ⟨x, y, hx, hy, he⟩ | hnone | ⟨ha, _⟩
  · left; rw [← heq, hst]
  · rw [hst] at hx
    have hx2 : st = x := by injection hx
    subst hx2
    rcases hterm with h2 | h2 <;> subst h2 <;> cases he
  · right; exact hnone
  · rw [hst] at ha; cases ha

end MonkeyOCR
